import Mathlib

/-!
Shallow embedding of the List Manager component
(`NewComponent.vue`, `<script setup>` block): reactive state
`items` / `newItemText` / `searchQuery`, the methods `addItem` and
`removeItem`, and the computed view `filteredItems`.

JavaScript strings are modelled as Lean `String` (a list of characters);
`String.prototype.trim`, `toLowerCase` and `includes` are embedded as
executable functions on the character list.  Item ids are `Int`
(JavaScript numbers; the program only ever assigns positive integers).
-/

/-- Embedding of `String.prototype.trim` on the character list:
drop leading and trailing whitespace. -/
def trimChars (l : List Char) : List Char :=
  ((l.dropWhile Char.isWhitespace).reverse.dropWhile Char.isWhitespace).reverse

/-- Embedding of `text.trim()`. -/
def jsTrim (s : String) : String :=
  String.mk (trimChars s.data)

/-- Embedding of `String.prototype.toLowerCase`. -/
def jsToLower (s : String) : String :=
  String.mk (s.data.map Char.toLower)

/-- Does `sub` occur at the very start of `hay`?  (Helper for the
embedding of `String.prototype.includes`.) -/
def subAt : List Char → List Char → Bool
  | [], _ => true
  | _ :: _, [] => false
  | a :: s, b :: t => a == b && subAt s t

/-- Does `sub` occur contiguously anywhere inside `hay`?  Embedding of
the substring search performed by `String.prototype.includes`. -/
def containsSub (sub : List Char) : List Char → Bool
  | [] => sub.isEmpty
  | c :: t => subAt sub (c :: t) || containsSub sub t

/-- Embedding of `hay.includes(sub)`. -/
def jsIncludes (hay sub : String) : Bool :=
  containsSub sub.data hay.data

/-- An item of the managed collection: `{ id, text }`. -/
structure Item where
  id : Int
  text : String
deriving DecidableEq

/-- The component state: the reactive refs `items`, `newItemText` and
`searchQuery` of the component. -/
structure ListState where
  items : List Item
  newItemText : String
  searchQuery : String
deriving DecidableEq

/-- The seed collection the component is created with. -/
def seedItems : List Item :=
  [{ id := 1, text := "First item" },
   { id := 2, text := "Second item" },
   { id := 3, text := "Third item" }]

/-- The initial component state: seed items, empty input buffer, empty
search query. -/
def seedState : ListState :=
  { items := seedItems, newItemText := "", searchQuery := "" }

/-- Embedding of `Math.max(...list)` : undefined (`-Infinity`) on the
empty argument list, the maximum otherwise. -/
def maxIdList : List Int → Option Int
  | [] => none
  | x :: xs => some (xs.foldl max x)

/-- The id computation of `addItem`:
`items.length > 0 ? Math.max(...items.map(i => i.id)) + 1 : 1`.
The `getD 0` default is never consulted: under `items.length > 0` the
maximum exists (proved below, claim C8). -/
def newId (items : List Item) : Int :=
  if items.length > 0 then (maxIdList (items.map Item.id)).getD 0 + 1 else 1

/-- Embedding of the method `addItem()`: if the trimmed input buffer is
non-empty, push `{ id: newId, text: newItemText }` (the un-trimmed
text) and clear the buffer; otherwise do nothing. -/
def addItem (s : ListState) : ListState :=
  if jsTrim s.newItemText = "" then s
  else
    { s with
      items := s.items ++ [{ id := newId s.items, text := s.newItemText }],
      newItemText := "" }

/-- The collection-level part of `removeItem(id)`:
`findIndex` followed by `splice(index, 1)` when the index is not `-1`. -/
def removeById (l : List Item) (i : Int) : List Item :=
  match l.findIdx? (fun item => item.id == i) with
  | some k => l.eraseIdx k
  | none => l

/-- Embedding of the method `removeItem(id)`. -/
def removeItem (s : ListState) (i : Int) : ListState :=
  { s with items := removeById s.items i }

/-- Embedding of the computed property `filteredItems`:
`items.filter(item => item.text.toLowerCase().includes(searchQuery.toLowerCase()))`. -/
def filteredItems (s : ListState) : List Item :=
  s.items.filter (fun item => jsIncludes (jsToLower item.text) (jsToLower s.searchQuery))

/-- Option-valued variant of the id computation, making the partiality
of `Math.max` on an empty argument list explicit instead of defaulting. -/
def newIdChecked (items : List Item) : Option Int :=
  if items.length > 0 then (maxIdList (items.map Item.id)).map (fun m => m + 1)
  else some 1

/-- Option-valued variant of `addItem`, failing exactly when the
`Math.max` computation would be reached on an empty collection. -/
def addItemChecked (s : ListState) : Option ListState :=
  if jsTrim s.newItemText = "" then some s
  else
    (newIdChecked s.items).map (fun i =>
      { s with
        items := s.items ++ [{ id := i, text := s.newItemText }],
        newItemText := "" })

/-- Option-valued `splice(i, 1)`: fails when the index is out of range. -/
def eraseIdxChecked (l : List Item) (k : Nat) : Option (List Item) :=
  if k < l.length then some (l.eraseIdx k) else none

/-- Option-valued variant of `removeItem`, failing when `splice` would
be handed an out-of-range index. -/
def removeItemChecked (s : ListState) (i : Int) : Option ListState :=
  match s.items.findIdx? (fun item => item.id == i) with
  | some k => (eraseIdxChecked s.items k).map (fun l => { s with items := l })
  | none => some s

/-- A user-level operation on the component: typing `text` and pressing
Add, or clicking Remove on id `i`. -/
inductive Op where
  | add : String → Op
  | remove : Int → Op
deriving DecidableEq

/-- Apply one operation: `add text` sets the input buffer to `text` and
invokes `addItem`; `remove i` invokes `removeItem i`. -/
def applyOp (s : ListState) : Op → ListState
  | .add text => addItem { s with newItemText := text }
  | .remove i => removeItem s i

/-- Run a sequence of operations from the seed state. -/
def runOps (ops : List Op) : ListState :=
  ops.foldl applyOp seedState

/-- The specification predicate for the filtered view: the query,
compared case-insensitively, occurs as a contiguous substring of the
item text, also compared case-insensitively. -/
def matchesQuery (q : String) (it : Item) : Prop :=
  (q.data.map Char.toLower) <:+: (it.text.data.map Char.toLower)

instance (q : String) (it : Item) : Decidable (matchesQuery q it) := by
  unfold matchesQuery
  infer_instance

/-- The executable start-of-list check agrees with `List.IsPrefix `. -/
theorem subAt_iff (sub : List Char) :
    ∀ hay : List Char, subAt sub hay = true ↔ sub <+: hay := by
  induction sub with
  | nil =>
    intro hay
    simp [subAt]
  | cons a s ih =>
    intro hay
    cases hay with
    | nil => simp [subAt]
    | cons b t => simp [subAt, List.cons_prefix_cons, ih]

/-- The executable substring check agrees with `List.IsInfix `. -/
theorem containsSub_iff (sub : List Char) :
    ∀ hay : List Char, containsSub sub hay = true ↔ sub <:+: hay := by
  intro hay
  induction hay with
  | nil =>
    simp [containsSub, List.isEmpty_iff]
  | cons c t ih =>
    simp [containsSub, List.infix_cons_iff, subAt_iff, ih]

/-- Bool-level form of `containsSub_iff`. -/
theorem containsSub_eq_decide (sub hay : List Char) :
    containsSub sub hay = decide (sub <:+: hay) := by
  by_cases h : sub <:+: hay
  · simp [h, (containsSub_iff sub hay).mpr h]
  · rw [decide_eq_false h]
    exact Bool.eq_false_iff.mpr (fun hc => h ((containsSub_iff sub hay).mp hc))

/-- The empty character list is a substring of everything. -/
theorem containsSub_nil (hay : List Char) : containsSub [] hay = true := by
  cases hay <;> rfl

/-- Claim C5: the filtered view is exactly the ordered sub-sequence of
items whose text contains the query, both compared case-insensitively:
it equals the filter of the collection by the specification predicate
`matchesQuery`, it is a sublist (ordered sub-sequence) of the
collection, and membership in it is membership in the collection plus
the match condition.  The state itself is untouched: `filteredItems` is
a pure function of the state. -/
theorem filteredItems_spec (s : ListState) :
    filteredItems s = s.items.filter (fun it => decide (matchesQuery s.searchQuery it)) ∧
    (filteredItems s).Sublist s.items ∧
    ∀ it : Item, it ∈ filteredItems s ↔ it ∈ s.items ∧ matchesQuery s.searchQuery it := by
  have hfilter :
      filteredItems s = s.items.filter (fun it => decide (matchesQuery s.searchQuery it)) := by
    unfold filteredItems
    refine List.filter_congr ?_
    intro it _
    show jsIncludes (jsToLower it.text) (jsToLower s.searchQuery) = _
    unfold jsIncludes jsToLower matchesQuery
    exact containsSub_eq_decide _ _
  refine ⟨hfilter, ?_, ?_⟩
  · rw [hfilter]
    exact List.filter_sublist s.items
  · intro it
    rw [hfilter]
    simp [List.mem_filter]

/-- Claim C6: with the empty search query the filtered view is the
whole collection, in its original order. -/
theorem filteredItems_empty_query (items : List Item) (nt : String) :
    filteredItems { items := items, newItemText := nt, searchQuery := "" } = items := by
  unfold filteredItems
  have hall : ∀ it : Item,
      jsIncludes (jsToLower it.text) (jsToLower "") = true := by
    intro it
    unfold jsIncludes jsToLower
    exact containsSub_nil _
  simp only [hall]
  exact List.filter_true items

/-- Claim C9: `addItem` leaves the search query unchanged, whether or
not the add was a no-op. -/
theorem addItem_preserves_query (s : ListState) :
    (addItem s).searchQuery = s.searchQuery := by
  unfold addItem
  split <;> rfl

/-- Helper: the blank-input branch of `addItem` returns the state
unchanged. -/
theorem addItem_of_blank (s : ListState) (h : jsTrim s.newItemText = "") :
    addItem s = s := by
  unfold addItem
  rw [if_pos h]

/-- Claim C7: when the input buffer trims to the empty string,
`addItem` is a no-op: the whole state is unchanged. -/
theorem addItem_blank_noop (s : ListState) (h : jsTrim s.newItemText = "") :
    addItem s = s :=
  addItem_of_blank s h

/-- Witness for C7 at the concrete whitespace-only input `"   "`. -/
theorem addItem_blank_noop_witness :
    addItem { seedState with newItemText := "   " } =
      { seedState with newItemText := "   " } :=
  addItem_blank_noop { seedState with newItemText := "   " } (by decide)

/-- The seed of a max-fold is a lower bound of its result. -/
theorem le_foldl_max (l : List Int) : ∀ a : Int, a ≤ l.foldl max a := by
  induction l with
  | nil => intro a; exact le_refl a
  | cons b t ih =>
    intro a
    exact le_trans (le_max_left a b) (ih (max a b))

/-- Every list element is bounded by the max-fold over the list. -/
theorem mem_le_foldl_max (l : List Int) :
    ∀ (a x : Int), x ∈ l → x ≤ l.foldl max a := by
  induction l with
  | nil => intro a x hx; cases hx
  | cons b t ih =>
    intro a x hx
    rcases List.mem_cons.mp hx with rfl | hx
    · exact le_trans (le_max_right a x) (le_foldl_max t (max a x))
    · exact ih (max a b) x hx

/-- The max-fold result is the seed or one of the list elements. -/
theorem foldl_max_choice (l : List Int) :
    ∀ a : Int, l.foldl max a = a ∨ l.foldl max a ∈ l := by
  induction l with
  | nil => intro a; exact Or.inl rfl
  | cons b t ih =>
    intro a
    rcases ih (max a b) with h | h
    · rcases max_choice a b with hm | hm
      · exact Or.inl (h.trans hm)
      · exact Or.inr (List.mem_cons.mpr (Or.inl (h.trans hm)))
    · exact Or.inr (List.mem_cons.mpr (Or.inr h))

/-- The freshly computed id is strictly greater than every id in the
collection it was computed from. -/
theorem newId_gt (items : List Item) :
    ∀ it ∈ items, it.id < newId items := by
  intro it hit
  unfold newId
  cases items with
  | nil => cases hit
  | cons x xs =>
    have hlen : (x :: xs).length > 0 := Nat.succ_pos _
    rw [if_pos hlen]
    have hmax : maxIdList ((x :: xs).map Item.id) =
        some ((xs.map Item.id).foldl max x.id) := rfl
    rw [hmax]
    show it.id < (xs.map Item.id).foldl max x.id + 1
    have hle : it.id ≤ (xs.map Item.id).foldl max x.id := by
      rcases List.mem_cons.mp hit with rfl | hmem
      · exact le_foldl_max (xs.map Item.id) it.id
      · exact mem_le_foldl_max (xs.map Item.id) x.id it.id (List.mem_map_of_mem Item.id hmem)
    exact lt_of_le_of_lt hle (lt_add_one _)

/-- On a non-empty collection the new id, minus one, is an id of the
collection and an upper bound of all its ids: it is the maximum id. -/
theorem newId_sub_one_is_max (x : Item) (xs : List Item) :
    (newId (x :: xs) - 1) ∈ (x :: xs).map Item.id ∧
    ∀ i ∈ (x :: xs).map Item.id, i ≤ newId (x :: xs) - 1 := by
  have hval : newId (x :: xs) = (xs.map Item.id).foldl max x.id + 1 := by
    unfold newId
    have hlen : (x :: xs).length > 0 := Nat.succ_pos _
    rw [if_pos hlen]
    rfl
  rw [hval]
  simp only [add_sub_cancel_right]
  constructor
  · rcases foldl_max_choice (xs.map Item.id) x.id with h | h
    · rw [h]; exact List.mem_map_of_mem Item.id (List.mem_cons_self x xs)
    · exact List.mem_map.mpr
        ((List.mem_map.mp h).elim (fun y hy => ⟨y, List.mem_cons_of_mem x hy.1, hy.2⟩))
  · intro i hi
    rcases List.mem_map.mp hi with ⟨y, hy, rfl⟩
    rcases List.mem_cons.mp hy with rfl | hmem
    · exact le_foldl_max (xs.map Item.id) y.id
    · exact mem_le_foldl_max (xs.map Item.id) x.id y.id (List.mem_map_of_mem Item.id hmem)

/-- A successful `addItem` appends exactly one item, carrying the
un-trimmed input text, and clears the input buffer. -/
theorem addItem_push (s : ListState) (h : jsTrim s.newItemText ≠ "") :
    addItem s =
      { s with
        items := s.items ++ [{ id := newId s.items, text := s.newItemText }],
        newItemText := "" } := by
  unfold addItem
  rw [if_neg h]

/-- Claim C1: a successful `addItem` grows the collection by exactly
one, appending at the end an item whose id is the maximum existing id
plus one (or 1 on an empty collection), and that id is strictly greater
than every id present at call time. -/
theorem addItem_grows (s : ListState) (h : jsTrim s.newItemText ≠ "") :
    (addItem s).items.length = s.items.length + 1 ∧
    (addItem s).items = s.items ++ [{ id := newId s.items, text := s.newItemText }] ∧
    (∀ it ∈ s.items, it.id < newId s.items) ∧
    (s.items = [] → newId s.items = 1) ∧
    (s.items ≠ [] →
      (newId s.items - 1) ∈ s.items.map Item.id ∧
      ∀ i ∈ s.items.map Item.id, i ≤ newId s.items - 1) := by
  have hpush := addItem_push s h
  refine ⟨?_, ?_, newId_gt s.items, ?_, ?_⟩
  · rw [hpush]
    simp
  · rw [hpush]
  · intro hnil
    rw [hnil]
    rfl
  · intro hne
    cases hx : s.items with
    | nil => exact absurd hx hne
    | cons x xs => exact newId_sub_one_is_max x xs

/-- Witness for C1: adding `"Fourth item"` to the seed state grows the
collection from 3 to 4 items. -/
theorem addItem_grows_witness :
    (addItem { seedState with newItemText := "Fourth item" }).items.length =
      { seedState with newItemText := "Fourth item" }.items.length + 1 :=
  (addItem_grows { seedState with newItemText := "Fourth item" } (by decide)).1

/-- Claim C10: on a successful `addItem` the stored text is the
original un-trimmed input and the input buffer is reset to empty. -/
theorem addItem_stores_raw_text (s : ListState) (h : jsTrim s.newItemText ≠ "") :
    (addItem s).items = s.items ++ [{ id := newId s.items, text := s.newItemText }] ∧
    (addItem s).newItemText = "" := by
  rw [addItem_push s h]
  exact ⟨rfl, rfl⟩

/-- Witness for C10 at an input with leading and trailing whitespace:
the stored text keeps the padding. -/
theorem addItem_stores_raw_text_witness :
    (addItem { seedState with newItemText := "  padded  " }).items =
      { seedState with newItemText := "  padded  " }.items ++
        [{ id := newId { seedState with newItemText := "  padded  " }.items,
           text := "  padded  " }] ∧
    (addItem { seedState with newItemText := "  padded  " }).newItemText = "" :=
  addItem_stores_raw_text { seedState with newItemText := "  padded  " } (by decide)

/-- Unfolding equation of `removeById` on a cons cell. -/
theorem removeById_cons (x : Item) (t : List Item) (i : Int) :
    removeById (x :: t) i = if x.id == i then t else x :: removeById t i := by
  by_cases h : (x.id == i) = true
  · simp [removeById, List.findIdx?_cons, h]
  · simp only [removeById, List.findIdx?_cons, h, if_false, Bool.false_eq_true,
      List.findIdx?_succ]
    cases hf : t.findIdx? (fun item => item.id == i) with
    | none => simp [hf]
    | some j => simp [hf]

/-- Removing an absent id leaves the collection untouched. -/
theorem removeById_not_mem (l : List Item) (i : Int) :
    i ∉ l.map Item.id → removeById l i = l := by
  induction l with
  | nil => intro _; rfl
  | cons x t ih =>
    intro h
    have hx : x.id ≠ i := by
      intro he
      exact h (by rw [← he]; exact List.mem_map_of_mem Item.id (List.mem_cons_self x t))
    have ht : i ∉ t.map Item.id := fun hm => h (List.mem_cons_of_mem _ hm)
    rw [removeById_cons, if_neg (by simp [hx]), ih ht]

/-- Removing a present id deletes exactly the first item carrying it
and keeps the rest in order. -/
theorem removeById_mem (l : List Item) (i : Int) :
    i ∈ l.map Item.id →
    ∃ l1 x l2, l = l1 ++ x :: l2 ∧ x.id = i ∧ (∀ y ∈ l1, y.id ≠ i) ∧
      removeById l i = l1 ++ l2 := by
  induction l with
  | nil => intro h; cases h
  | cons x t ih =>
    intro h
    by_cases hx : x.id = i
    · exact ⟨[], x, t, rfl, hx, (by intro y hy; cases hy),
        (by rw [removeById_cons, if_pos (by simp [hx])]; rfl)⟩
    · have ht : i ∈ t.map Item.id := by
        rcases List.mem_map.mp h with ⟨y, hy, hyi⟩
        rcases List.mem_cons.mp hy with rfl | hmem
        · exact absurd hyi hx
        · exact List.mem_map.mpr ⟨y, hmem, hyi⟩
      rcases ih ht with ⟨l1, z, l2, hsplit, hz, hl1, hrm⟩
      refine ⟨x :: l1, z, l2, by rw [hsplit]; rfl, hz, ?_, ?_⟩
      · intro y hy
        rcases List.mem_cons.mp hy with rfl | hmem
        · exact hx
        · exact hl1 y hmem
      · rw [removeById_cons, if_neg (by simp [hx]), hrm]
        rfl

/-- Claim C4: `removeItem` on a present id deletes exactly one item —
the first one carrying that id — and preserves the relative order of
the remaining items; on an absent id it leaves the state completely
unchanged. -/
theorem removeItem_first_or_noop (s : ListState) (i : Int) :
    (i ∉ s.items.map Item.id → removeItem s i = s) ∧
    (i ∈ s.items.map Item.id →
      ∃ l1 x l2, s.items = l1 ++ x :: l2 ∧ x.id = i ∧ (∀ y ∈ l1, y.id ≠ i) ∧
        removeItem s i = { s with items := l1 ++ l2 }) := by
  constructor
  · intro h
    show { s with items := removeById s.items i } = s
    rw [removeById_not_mem s.items i h]
  · intro h
    rcases removeById_mem s.items i h with ⟨l1, x, l2, hsplit, hx, hl1, hrm⟩
    refine ⟨l1, x, l2, hsplit, hx, hl1, ?_⟩
    show { s with items := removeById s.items i } = { s with items := l1 ++ l2 }
    rw [hrm]

/-- Witness for C4 at a concrete absent id: removing id 99 from the
seed state changes nothing. -/
theorem removeItem_first_or_noop_witness :
    removeItem seedState 99 = seedState :=
  (removeItem_first_or_noop seedState 99).1 (by decide)

/-- The Option-valued id computation never actually fails: the
`Math.max` call is guarded by `items.length > 0`. -/
theorem newIdChecked_eq (items : List Item) :
    newIdChecked items = some (newId items) := by
  cases items with
  | nil => rfl
  | cons x xs =>
    unfold newIdChecked newId
    have hlen : (x :: xs).length > 0 := Nat.succ_pos _
    rw [if_pos hlen, if_pos hlen]
    rfl

/-- Claim C8: every operation is total.  The Option-valued variants of
`addItem` and `removeItem` — which fail exactly where the JavaScript
code could misbehave (`Math.max()` over an empty spread, `splice` at an
out-of-range index) — always succeed, and agree with the total
embeddings.  `filteredItems` is total by construction. -/
theorem ops_total (s : ListState) (i : Int) :
    addItemChecked s = some (addItem s) ∧
    removeItemChecked s i = some (removeItem s i) := by
  constructor
  · unfold addItemChecked addItem
    by_cases h : jsTrim s.newItemText = ""
    · rw [if_pos h, if_pos h]
    · rw [if_neg h, if_neg h, newIdChecked_eq]
      rfl
  · unfold removeItemChecked removeItem removeById
    cases hf : s.items.findIdx? (fun item => item.id == i) with
    | none => rfl
    | some k =>
      have hk : k < s.items.length :=
        (List.findIdx?_eq_some_iff_findIdx_eq.mp hf).1
      simp [eraseIdxChecked, hk]

/-- One operation preserves distinctness of the ids in the collection:
`addItem` appends an id strictly above every present id, and
`removeItem` deletes from the list. -/
theorem nodup_applyOp (s : ListState) (op : Op)
    (h : (s.items.map Item.id).Nodup) :
    ((applyOp s op).items.map Item.id).Nodup := by
  cases op with
  | add text =>
    show ((addItem { s with newItemText := text }).items.map Item.id).Nodup
    by_cases hg : jsTrim text = ""
    · rw [addItem_of_blank _ hg]
      exact h
    · rw [addItem_push _ hg]
      show ((s.items ++ [({ id := newId s.items, text := text } : Item)]).map Item.id).Nodup
      rw [List.map_append, List.nodup_append]
      refine ⟨h, List.nodup_singleton _, ?_⟩
      intro a ha hb
      have haeq : a = newId s.items := List.mem_singleton.mp hb
      rcases List.mem_map.mp ha with ⟨y, hy, rfl⟩
      exact absurd haeq (ne_of_lt (newId_gt s.items y hy))
  | remove j =>
    show ((removeItem s j).items.map Item.id).Nodup
    unfold removeItem removeById
    cases hf : s.items.findIdx? (fun item => item.id == j) with
    | none => exact h
    | some k =>
      exact h.sublist ((List.eraseIdx_sublist s.items k).map Item.id)

/-- Folding any operation sequence preserves distinctness of ids. -/
theorem nodup_foldl (ops : List Op) :
    ∀ s : ListState, (s.items.map Item.id).Nodup →
      ((ops.foldl applyOp s).items.map Item.id).Nodup := by
  induction ops with
  | nil => exact fun s h => h
  | cons op t ih =>
    intro s h
    exact ih (applyOp s op) (nodup_applyOp s op h)

/-- Claim C2: after any sequence of add and remove operations from the
seed state, the ids in the live collection are pairwise distinct. -/
theorem runOps_ids_nodup (ops : List Op) :
    ((runOps ops).items.map Item.id).Nodup :=
  nodup_foldl ops seedState (by decide)

/-- Counterexample to claim C3: starting from the seed collection with
ids `[1, 2, 3]`, removing id 3 and then adding again assigns id 3 to
the new item — the removed id is reused. -/
theorem removed_id_reused_cex :
    seedState.items.map Item.id = [1, 2, 3] ∧
    (runOps [Op.remove 3]).items.map Item.id = [1, 2] ∧
    (runOps [Op.remove 3, Op.add "again"]).items.map Item.id = [1, 2, 3] := by
  decide

/-- Amended claim C3: ids CAN be reused after removal.  Whenever the
removed id `r` equals the id `addItem` would next compute on the
remaining collection — as happens when the current maximum id is
removed from a contiguously numbered collection — the next successful
add appends a fresh item carrying exactly the removed id `r`. -/
theorem removed_id_reassigned (s : ListState) (r : Int) (t : String)
    (_hmem : r ∈ s.items.map Item.id)
    (hid : newId (removeItem s r).items = r)
    (ht : jsTrim t ≠ "") :
    (∀ it ∈ (removeItem s r).items, it.id ≠ r) ∧
    (addItem { removeItem s r with newItemText := t }).items =
      (removeItem s r).items ++ [{ id := r, text := t }] := by
  constructor
  · intro it hit
    exact ne_of_lt (hid ▸ newId_gt (removeItem s r).items it hit)
  · rw [addItem_push _ ht]
    show (removeItem s r).items ++ [{ id := newId (removeItem s r).items, text := t }] = _
    rw [hid]

/-- Witness for the amended C3 on the seed state: after removing id 3,
adding the text `"again"` reassigns id 3. -/
theorem removed_id_reassigned_witness :
    (∀ it ∈ (removeItem seedState 3).items, it.id ≠ 3) ∧
    (addItem { removeItem seedState 3 with newItemText := "again" }).items =
      (removeItem seedState 3).items ++ [{ id := 3, text := "again" }] :=
  removed_id_reassigned seedState 3 "again" (by decide) (by decide) (by decide)
